import Mathlib

/-!
Verification of the sbt lockfile generator (`scripts/generate-lockfile.py`).

The script is embedded shallowly:
  * pure helpers (`_nix_base32`, `path_to_url`, deduplication, sorting) become
    Lean functions over `Nat`, `String` and lists;
  * the filesystem listing consumed by the cache scanner is passed in
    explicitly as the list of relative paths (in traversal order) of the
    regular files below the cache root, and the SHA256 content hash of a file
    is passed in as an opaque function of its path;
  * Python exceptions become `Except String`, and the `try/finally` cleanup of
    the sandbox becomes an explicit finaliser over a cleanup state;
  * Python string primitives used by the script (`str.__le__`, `$VAR`
    expansion from `os.path.expandvars`, `str.replace`, `pathlib` suffix/parts)
    are re-implemented on `List Char`, character by character, so that every
    definition evaluates inside the kernel.
-/

namespace Squish

/-! ### String primitives -/

/-- Lexicographic `≤` on character lists by code point, the order Python uses
to compare strings (and hence `pathlib` paths, which compare by their string
representation). -/
def listCharLe : List Char → List Char → Bool
  | [], _ => true
  | _ :: _, [] => false
  | a :: as, b :: bs => if a = b then listCharLe as bs else decide (a < b)

/-- Python `s <= t` on strings. -/
def strLe (s t : String) : Bool := listCharLe s.data t.data

/-- The path order used by `sorted(...)` in the script, as a `Prop`. -/
def pathLe (a b : String) : Prop := strLe a b = true

instance : DecidableRel pathLe := fun a b => inferInstanceAs (Decidable (strLe a b = true))

/-- Python `s.startswith(pre)`: the first `len(pre)` characters are `pre`. -/
def strStartsWith (s pre : String) : Bool := s.data.take pre.data.length == pre.data

/-- Python `s.endswith(suf)` (also the semantics of the glob `*suf` on a file
name): the last `len(suf)` characters are `suf`. -/
def strEndsWith (s suf : String) : Bool :=
  decide (suf.data.length ≤ s.data.length) &&
    (s.data.drop (s.data.length - suf.data.length) == suf.data)

/-- Split a character list at `/` separators, accumulating the current
segment in reverse. Models `PurePath.parts` for a normalized relative path
(and Python `str.split("/")`). -/
def splitSegs : List Char → List Char → List String
  | [], cur => [String.mk cur.reverse]
  | c :: rest, cur =>
    if c = '/' then String.mk cur.reverse :: splitSegs rest [] else splitSegs rest (c :: cur)

/-- The `/`-separated segments of a path string. -/
def pathParts (s : String) : List String := splitSegs s.data []

/-- Python `"/".join(parts)`. -/
def joinSlash : List String → String
  | [] => ""
  | [s] => s
  | s :: rest => s ++ "/" ++ joinSlash rest

/-- Index of the first element of `l` equal to `x`, models Python
`list.index` (which raises when absent, hence `Option`). -/
def indexOfFirst (x : String) : List String → Option Nat
  | [] => none
  | a :: rest => if a = x then some 0 else (indexOfFirst x rest).map (· + 1)

/-- First index at which `p` holds in a character list. -/
def firstIdxAux (p : Char → Bool) : List Char → Option Nat
  | [] => none
  | c :: rest => if p c then some 0 else (firstIdxAux p rest).map (· + 1)

/-- Index of the last `.` in a character list (Python `name.rfind(".")`,
`none` for `-1`). -/
def lastDotIdx (cs : List Char) : Option Nat :=
  match firstIdxAux (fun c => c == '.') cs.reverse with
  | none => none
  | some j => some (cs.length - 1 - j)

/-- The last `/`-separated component of a path (Python `PurePath.name` for a
relative path with a nonempty final segment). -/
def lastComponent (p : String) : String := (pathParts p).getLastD ""

/-- Python `PurePath.suffix` of a file name: `name[i:]` for `i` the last dot
index when `0 < i < len(name) - 1`, else the empty string. -/
def nameSuffix (name : String) : String :=
  match lastDotIdx name.data with
  | none => ""
  | some i =>
    if 0 < i ∧ i < name.data.length - 1 then String.mk (name.data.drop i) else ""

/-- `path.suffix` of the final component of a path. -/
def fileSuffix (p : String) : String := nameSuffix (lastComponent p)

/-! ### Digest encoder (`_nix_base32`, lines 111-122) -/

/-- The 32-symbol alphabet `NIX_BASE32_ALPHABET` (line 19). -/
def NIX_BASE32_ALPHABET : List Char := "0123456789abcdfghijklmnpqrsvwxyz".data

/-- Python `int.from_bytes(digest, "little")`: the digest bytes as one
unsigned little-endian integer. -/
def fromLEBytes : List Nat → Nat
  | [] => 0
  | b :: rest => b + 256 * fromLEBytes rest

/-- The `while value > 0: value, remainder = divmod(value, 32)` loop of
`_nix_base32`, producing the base-32 digits least significant first. The
fuel argument only bounds the number of iterations; `fuel = value` always
suffices since each iteration at least halves the value. -/
def base32DigitsRevFuel : Nat → Nat → List Nat
  | 0, _ => []
  | fuel + 1, v => if v = 0 then [] else v % 32 :: base32DigitsRevFuel fuel (v / 32)

/-- Base-32 digits of `v`, least significant first (empty for `v = 0`),
exactly as the loop in `_nix_base32` computes them. -/
def base32DigitsRev (v : Nat) : List Nat := base32DigitsRevFuel v v

/-- `_nix_base32(digest)` (lines 111-122): map the reversed digit list
through the alphabet and left-pad with the zero symbol
`NIX_BASE32_ALPHABET[0]` to `(len(digest) * 8 + 4) // 5` characters. -/
def nix_base32 (digest : List Nat) : String :=
  let value := fromLEBytes digest
  let encodedReversed := (base32DigitsRev value).map (fun d => NIX_BASE32_ALPHABET.getD d ' ')
  let targetLength := (digest.length * 8 + 4) / 5
  String.mk
    (List.replicate (targetLength - encodedReversed.length) (NIX_BASE32_ALPHABET.getD 0 ' ') ++
      encodedReversed.reverse)

/-- Specification-side rendering: the exactly-`len`-digit base-32
representation of `v`, most significant digit first
(digit `k` from the top is `(v / 32 ^ (len - 1 - k)) % 32`). -/
def fixedBase32Digits : Nat → Nat → List Nat
  | 0, _ => []
  | len + 1, v => fixedBase32Digits len (v / 32) ++ [v % 32]

/-- Render a digit list over the Nix base-32 alphabet. -/
def base32Render (digits : List Nat) : String :=
  String.mk (digits.map (fun d => NIX_BASE32_ALPHABET.getD d ' '))

/-! ### Cache scanner (`find_coursier_artifacts`, lines 139-158, and
`assert_no_ivy_artifacts`, lines 161-171)

The directory tree below the cache root is represented by the list of
relative path strings of its regular files, in traversal order. -/

/-- Whether a relative path lies strictly below the directory `d`. -/
def underDir (d p : String) : Bool := strStartsWith p (d ++ "/")

/-- `path.suffix in (".jar", ".pom", ".xml")` (line 155). -/
def isArtifactFile (p : String) : Bool :=
  fileSuffix p == ".jar" || (fileSuffix p == ".pom" || fileSuffix p == ".xml")

/-- `find_coursier_artifacts`: collect the artifact files below
`cache/https` and below `https` and return them sorted (line 158,
`sorted(artifacts)`). -/
def find_coursier_artifacts (files : List String) : List String :=
  List.insertionSort pathLe
    (files.filter (fun p => underDir "cache/https" p && isArtifactFile p) ++
      files.filter (fun p => underDir "https" p && isArtifactFile p))

/-- A cache entry counted by `ivy_cache.rglob("*.jar")`. -/
def isJarEntry (p : String) : Bool := strEndsWith (lastComponent p) ".jar"

/-- A cache entry counted by `ivy_cache.rglob("*.pom")`. -/
def isPomEntry (p : String) : Bool := strEndsWith (lastComponent p) ".pom"

/-- An offending legacy-cache entry: a `.jar` or `.pom` file. -/
def isIvyArtifact (p : String) : Bool := isJarEntry p || isPomEntry p

/-- The `AssertionError` message of `assert_no_ivy_artifacts`
(lines 168-171), naming the artifact count and the first offending path. -/
def ivyErrorMsg (count : Nat) (first : String) : String :=
  "Found " ++ toString count ++
    " Ivy artifacts, but modern sbt should use Coursier only. First artifact: " ++ first

/-- `assert_no_ivy_artifacts(ivy_cache)` (lines 161-171). `none` models an
absent directory (`not ivy_cache.exists()`); otherwise the recursive listing
of the legacy cache is given. -/
def assert_no_ivy_artifacts (ivyCache : Option (List String)) : Except String Unit :=
  match ivyCache with
  | none => Except.ok ()
  | some files =>
    match files.filter isJarEntry ++ files.filter isPomEntry with
    | [] => Except.ok ()
    | a :: rest => Except.error (ivyErrorMsg (rest.length + 1) a)

/-! ### Cache path resolver (`path_to_url`, lines 278-290) -/

/-- `path.relative_to(cache_dir)` for string paths: strips `root ++ "/"`,
`none` when `path` is not below `root` (Python raises `ValueError`). -/
def relativeTo (path root : String) : Option String :=
  if path = root then some ""
  else if strStartsWith path (root ++ "/") then
    some (String.mk (path.data.drop (root ++ "/").data.length))
  else none

/-- `path_to_url(path, cache_dir)`: find the first `https` segment of the
relative path and rebuild `https://` + the remaining segments joined by `/`;
a structural error when no `https` segment exists (lines 285-290). -/
def path_to_url (path cacheDir : String) : Except String String :=
  match relativeTo path cacheDir with
  | none => Except.error ("path is not relative to the cache dir: " ++ path)
  | some rel =>
    let parts := pathParts rel
    match indexOfFirst "https" parts with
    | some i => Except.ok ("https://" ++ joinSlash (parts.drop (i + 1)))
    | none => Except.error ("Unexpected path structure (no https): " ++ path)

/-! ### Manifest builder (`_generate_lockfile_impl`, phase 2, lines 394-437) -/

/-- One `{url, sha256}` manifest entry. -/
structure ArtifactEntry where
  url : String
  sha256 : String
deriving DecidableEq

/-- The manifest `{"version": 1, "artifacts": [...]}`. -/
structure Manifest where
  version : Nat
  artifacts : List ArtifactEntry
deriving DecidableEq

/-- The key order of `entries.sort(key=lambda e: e["url"])` (line 430). -/
def entryLe (a b : ArtifactEntry) : Prop := strLe a.url b.url = true

instance : DecidableRel entryLe := fun a b => inferInstanceAs (Decidable (strLe a.url b.url = true))

/-- The deduplication loop of lines 420-427: keep an entry only if its URL
has not been seen, in input order; `seen` models the `seen_urls` set. -/
def dedupEntries : List ArtifactEntry → List String → List ArtifactEntry
  | [], _ => []
  | e :: rest, seen =>
    if e.url ∈ seen then dedupEntries rest seen
    else e :: dedupEntries rest (e.url :: seen)

/-- `entries.sort(key=lambda e: e["url"])` (line 430). -/
def sortEntries (es : List ArtifactEntry) : List ArtifactEntry :=
  List.insertionSort entryLe es

/-- The entry-building loop of lines 408-415: for each artifact path, resolve
its URL (an exception propagates) and record its hash. -/
def buildEntries (urlOf : String → Except String String) (hashOf : String → String) :
    List String → Except String (List ArtifactEntry)
  | [] => Except.ok []
  | p :: rest =>
    match urlOf p with
    | Except.error e => Except.error e
    | Except.ok u =>
      match buildEntries urlOf hashOf rest with
      | Except.error e => Except.error e
      | Except.ok es => Except.ok ({ url := u, sha256 := hashOf p } :: es)

/-- The absolute path of a cache file, `cache_dir / p`. -/
def absPath (cacheDir p : String) : String := (cacheDir ++ "/") ++ p

/-- `path_to_url(path, coursier_cache)` as used on line 410. -/
def urlOfPath (cacheDir p : String) : Except String String :=
  path_to_url (absPath cacheDir p) cacheDir

/-- Phase 2 of `_generate_lockfile_impl` (lines 394-437): legacy-cache
check, scan, fail on an empty scan, build entries, deduplicate, sort, wrap.
`hash` gives the SHA256 (nix base-32) of the file at an absolute path. -/
def generate_phase2 (cacheDir : String) (ivyCache : Option (List String))
    (cacheFiles : List String) (hash : String → String) : Except String Manifest :=
  match assert_no_ivy_artifacts ivyCache with
  | Except.error e => Except.error e
  | Except.ok _ =>
    if find_coursier_artifacts cacheFiles = [] then
      Except.error "No Coursier artifacts found - sbt may have failed to download dependencies"
    else
      match
        buildEntries (urlOfPath cacheDir) (fun p => hash (absPath cacheDir p))
          (find_coursier_artifacts cacheFiles) with
      | Except.error e => Except.error e
      | Except.ok entries =>
        Except.ok { version := 1, artifacts := sortEntries (dedupEntries entries []) }

/-! ### Sandbox orchestrator (`generate_lockfile`, lines 293-311) -/

/-- Cleanup-relevant state of a generation run: whether the disposable
sandbox root was removed, and whether its preserved location was reported. -/
structure CleanupState where
  removed : Bool
  keptReported : Bool
deriving DecidableEq

/-- The sandbox root handed to the implementation (`temp_home`). -/
def tempHomePath : String := "/tmp/squish-lockfile-sandbox"

/-- `generate_lockfile(project_dir, config, keep_temp)` (lines 293-311): the
`try/finally` around `_generate_lockfile_impl`. The body is abstracted as a
function of the sandbox root that either returns a manifest or raises; the
`finally` block removes the sandbox unless `keep_temp`, in which case it
reports the preserved location instead. -/
def generate_lockfile (keepTemp : Bool) (impl : String → Except String Manifest) :
    Except String Manifest × CleanupState :=
  let fin := fun (s : CleanupState) =>
    if keepTemp then { s with keptReported := true } else { s with removed := true }
  match impl tempHomePath with
  | Except.ok m => (Except.ok m, fin { removed := false, keptReported := false })
  | Except.error e => (Except.error e, fin { removed := false, keptReported := false })

/-! ### Shell-command environment expansion (lines 352-365)

Line 354 is `os.path.expandvars(arg.replace("$HOME", env["HOME"]))`.
`str.replace` and `os.path.expandvars` are modelled character by character;
crucially, `os.path.expandvars` reads the *ambient* process environment
(`os.environ`), which is passed here as `ambient`. -/

/-- A `\w` character of the `$name` form recognized by
`os.path.expandvars`. -/
def isWordChar (c : Char) : Bool := c.isAlphanum || c == '_'

/-- `os.path.expandvars` on a character list: expand `$name` and `${name}`
references from `envf`, leaving unset references and stray `$` untouched.
Fuel only bounds the recursion; `fuel = length` always suffices since every
step consumes at least one character, and exhausted fuel returns the rest
unchanged. -/
def expandVarsAux (envf : String → Option String) : Nat → List Char → List Char
  | 0, s => s
  | _ + 1, [] => []
  | fuel + 1, c :: rest =>
    if c = '$' then
      match rest with
      | '{' :: rest2 =>
        if rest2.any (fun d => d == '}') then
          let name := rest2.takeWhile (fun d => !(d == '}'))
          let after := (rest2.dropWhile (fun d => !(d == '}'))).drop 1
          match envf (String.mk name) with
          | some v => v.data ++ expandVarsAux envf fuel after
          | none => '$' :: '{' :: (name ++ '}' :: expandVarsAux envf fuel after)
        else '$' :: '{' :: expandVarsAux envf fuel rest2
      | _ =>
        let name := rest.takeWhile isWordChar
        if name.isEmpty then c :: expandVarsAux envf fuel rest
        else
          match envf (String.mk name) with
          | some v => v.data ++ expandVarsAux envf fuel (rest.drop name.length)
          | none => '$' :: (name ++ expandVarsAux envf fuel (rest.drop name.length))
    else c :: expandVarsAux envf fuel rest

/-- `os.path.expandvars(s)` resolving references via `envf`. -/
def expandVarsStr (envf : String → Option String) (s : String) : String :=
  String.mk (expandVarsAux envf s.data.length s.data)

/-- Python `s.replace(pat, repl)` for a nonempty `pat`: replace every
non-overlapping occurrence, scanning left to right. Fuel as above. -/
def replaceAll (pat repl : List Char) : Nat → List Char → List Char
  | 0, s => s
  | _ + 1, [] => []
  | fuel + 1, c :: rest =>
    if pat.take (c :: rest).length == (c :: rest).take pat.length &&
        pat.length ≤ (c :: rest).length then
      repl ++ replaceAll pat repl fuel ((c :: rest).drop pat.length)
    else c :: replaceAll pat repl fuel rest

/-- `arg.replace("$HOME", home)` for strings. -/
def strReplaceAll (s pat repl : String) : String :=
  String.mk (replaceAll pat.data repl.data s.data.length s.data)

/-- Line 354 for one argument: replace the literal `$HOME` with the sandbox
overlay home, then `os.path.expandvars` against the ambient environment. -/
def expandShellArg (sandboxHome : String) (ambient : String → Option String) (arg : String) :
    String :=
  expandVarsStr ambient (strReplaceAll arg "$HOME" sandboxHome)

/-- Line 354 for a whole configured command line. -/
def expandShellCommand (sandboxHome : String) (ambient : String → Option String)
    (cmd : List String) : List String :=
  cmd.map (expandShellArg sandboxHome ambient)

/-! ### Configuration loading (`Config.load`, lines 57-103) -/

/-- A JSON value, as produced by `json.load`. -/
inductive JValue where
  | jnull : JValue
  | jbool : Bool → JValue
  | jnum : Int → JValue
  | jstr : String → JValue
  | jarr : List JValue → JValue
  | jobj : List (String × JValue) → JValue

/-- `SbtRun` (lines 23-29), without its constructor invariant; the
constructor check lives in `mkSbtRun`. -/
structure SbtRun where
  args : List JValue

/-- `ArtifactFetch` (lines 32-39). -/
structure ArtifactFetch where
  coord : JValue
  classifiers : List JValue

/-- `Config` (lines 42-55), without its constructor invariant; the
constructor check lives in `mkConfig`. -/
structure Config where
  sbt_runs : List SbtRun
  shell_commands : List (List JValue)
  fetch_artifacts : List ArtifactFetch

/-- Lookup of a key in a JSON object (first binding wins). -/
def jlookup (key : String) : List (String × JValue) → Option JValue
  | [] => none
  | (k, v) :: rest => if k = key then some v else jlookup key rest

/-- Python truthiness of a JSON value (`if not coord`). -/
def jFalsy : JValue → Bool
  | JValue.jnull => true
  | JValue.jbool b => !b
  | JValue.jnum n => n == 0
  | JValue.jstr s => s.isEmpty
  | JValue.jarr xs => xs.isEmpty
  | JValue.jobj fs => fs.isEmpty

/-- `SbtRun.__init__` (lines 26-29): rejects an empty argument list. -/
def mkSbtRun (args : List JValue) : Except String SbtRun :=
  match args with
  | [] => Except.error "SbtRun requires at least one argument"
  | _ => Except.ok { args := args }

/-- `ArtifactFetch.__init__` (lines 35-39): rejects a falsy coord. -/
def mkArtifactFetch (coord : JValue) (classifiers : List JValue) :
    Except String ArtifactFetch :=
  if jFalsy coord then Except.error "ArtifactFetch requires a coord"
  else Except.ok { coord := coord, classifiers := classifiers }

/-- `Config.__init__` (lines 45-55): rejects an empty `sbt_runs` list. -/
def mkConfig (runs : List SbtRun) (shells : List (List JValue))
    (fetches : List ArtifactFetch) : Except String Config :=
  match runs with
  | [] => Except.error "Config requires at least one sbt_runs entry"
  | _ => Except.ok { sbt_runs := runs, shell_commands := shells, fetch_artifacts := fetches }

/-- The `for i, run_data in enumerate(data["sbt_runs"])` loop
(lines 69-78). -/
def parseSbtRuns : Nat → List JValue → Except String (List SbtRun)
  | _, [] => Except.ok []
  | i, r :: rest =>
    match r with
    | JValue.jobj fields =>
      match jlookup "args" fields with
      | none => Except.error ("sbt_runs[" ++ toString i ++ "] must contain args array")
      | some (JValue.jarr args) =>
        match mkSbtRun args with
        | Except.error e => Except.error e
        | Except.ok run =>
          match parseSbtRuns (i + 1) rest with
          | Except.error e => Except.error e
          | Except.ok runs => Except.ok (run :: runs)
      | some _ => Except.error ("sbt_runs[" ++ toString i ++ "].args must be an array")
    | _ => Except.error ("sbt_runs[" ++ toString i ++ "] must be an object")

/-- The `for i, cmd in enumerate(data["shell_commands"])` loop
(lines 84-87); note that only being a list is checked, not the elements and
not non-emptiness. -/
def parseShellCommands : Nat → List JValue → Except String (List (List JValue))
  | _, [] => Except.ok []
  | i, c :: rest =>
    match c with
    | JValue.jarr items =>
      match parseShellCommands (i + 1) rest with
      | Except.error e => Except.error e
      | Except.ok cmds => Except.ok (items :: cmds)
    | _ => Except.error ("shell_commands[" ++ toString i ++ "] must be an array of strings")

/-- The `for i, fetch_data in enumerate(data["fetch_artifacts"])` loop
(lines 93-101). -/
def parseFetchArtifacts : Nat → List JValue → Except String (List ArtifactFetch)
  | _, [] => Except.ok []
  | i, f :: rest =>
    match f with
    | JValue.jobj fields =>
      match jlookup "coord" fields with
      | none => Except.error ("fetch_artifacts[" ++ toString i ++ "] must contain coord string")
      | some coord =>
        match (jlookup "classifiers" fields).getD (JValue.jarr []) with
        | JValue.jarr classifiers =>
          match mkArtifactFetch coord classifiers with
          | Except.error e => Except.error e
          | Except.ok af =>
            match parseFetchArtifacts (i + 1) rest with
            | Except.error e => Except.error e
            | Except.ok afs => Except.ok (af :: afs)
        | _ =>
          Except.error ("fetch_artifacts[" ++ toString i ++ "].classifiers must be an array")
    | _ => Except.error ("fetch_artifacts[" ++ toString i ++ "] must be an object")

/-- `Config.load` (lines 57-103) on the parsed top-level JSON object. -/
def Config.load (data : List (String × JValue)) : Except String Config :=
  match jlookup "sbt_runs" data with
  | none => Except.error "Config must contain sbt_runs array"
  | some (JValue.jarr rs) =>
    match parseSbtRuns 0 rs with
    | Except.error e => Except.error e
    | Except.ok runs =>
      match
        (match jlookup "shell_commands" data with
          | none => Except.ok []
          | some (JValue.jarr cs) => parseShellCommands 0 cs
          | some _ => Except.error "shell_commands must be an array") with
      | Except.error e => Except.error e
      | Except.ok shells =>
        match
          (match jlookup "fetch_artifacts" data with
            | none => Except.ok []
            | some (JValue.jarr fs) => parseFetchArtifacts 0 fs
            | some _ => Except.error "fetch_artifacts must be an array") with
        | Except.error e => Except.error e
        | Except.ok fetches => mkConfig runs shells fetches
  | some _ => Except.error "sbt_runs must be an array"

/-- Whether an `Except` is a success. -/
def isOkE : Except String Config → Bool
  | Except.ok _ => true
  | Except.error _ => false

/-! ### Concrete inputs used by witnesses -/

/-- A generation body that raises, for exercising the cleanup path. -/
def implFail : String → Except String Manifest := fun _ => Except.error "sbt command failed"

/-- An ambient process environment binding `SOME_VAR` to `alpha`. -/
def ambientAlpha : String → Option String :=
  fun n => if n = "SOME_VAR" then some "alpha" else none

/-- An ambient process environment binding `SOME_VAR` to `beta`. -/
def ambientBeta : String → Option String :=
  fun n => if n = "SOME_VAR" then some "beta" else none

/-- A constant content-hash function. -/
def hashConst : String → String := fun _ => "h"

/-- A content-hash function that lets the hashed path be read back. -/
def hashIdent : String → String := fun s => s

/-- `main` up to the generation call (lines 470-472): load the
configuration, then (only on success) run generation. -/
def runMain (data : List (String × JValue)) (gen : Config → Except String Manifest) :
    Except String Manifest :=
  match Config.load data with
  | Except.error e => Except.error e
  | Except.ok c => gen c


/-! ## Lemmas for the digest encoder -/

theorem fromLEBytes_lt (l : List Nat) (h : ∀ b ∈ l, b < 256) :
    fromLEBytes l < 256 ^ l.length := by
  induction l with
  | nil => simp [fromLEBytes]
  | cons b rest ih =>
    have hb : b < 256 := h b (List.mem_cons_self b rest)
    have hr : fromLEBytes rest < 256 ^ rest.length :=
      ih (fun x hx => h x (List.mem_cons_of_mem b hx))
    have h1 : b + 256 * fromLEBytes rest < 256 * (fromLEBytes rest + 1) := by omega
    have h2 : 256 * (fromLEBytes rest + 1) ≤ 256 * 256 ^ rest.length :=
      Nat.mul_le_mul_left 256 (Nat.succ_le_of_lt hr)
    have h3 : 256 * 256 ^ rest.length = 256 ^ (rest.length + 1) := by
      rw [pow_succ, Nat.mul_comm]
    simp only [fromLEBytes, List.length_cons]
    omega

theorem base32DigitsRevFuel_zero (fuel : Nat) : base32DigitsRevFuel fuel 0 = [] := by
  cases fuel <;> simp [base32DigitsRevFuel]

theorem length_fixedBase32Digits (len : Nat) :
    ∀ v, (fixedBase32Digits len v).length = len := by
  induction len with
  | zero => intro v; simp [fixedBase32Digits]
  | succ n ih => intro v; simp [fixedBase32Digits, ih]

theorem pad_digits (len : Nat) : ∀ fuel v, v < 32 ^ len → v ≤ fuel →
    List.replicate (len - (base32DigitsRevFuel fuel v).length) 0 ++
      (base32DigitsRevFuel fuel v).reverse = fixedBase32Digits len v := by
  induction len with
  | zero =>
    intro fuel v hv _
    have hv0 : v = 0 := by omega
    subst hv0
    simp [base32DigitsRevFuel_zero, fixedBase32Digits]
  | succ n ih =>
    intro fuel v hv hfuel
    by_cases h0 : v = 0
    · subst h0
      have ihz := ih fuel 0 (Nat.pos_pow_of_pos n (by norm_num)) (Nat.zero_le _)
      simp only [base32DigitsRevFuel_zero, List.length_nil, Nat.sub_zero,
        List.reverse_nil, List.append_nil] at ihz ⊢
      rw [show fixedBase32Digits (n + 1) 0 = fixedBase32Digits n 0 ++ [0 % 32] from rfl]
      rw [← ihz]
      simp [List.replicate_succ']
    · obtain ⟨f, rfl⟩ : ∃ f, fuel = f + 1 := ⟨fuel - 1, by omega⟩
      have hdiv : v / 32 < 32 ^ n := by
        rw [Nat.div_lt_iff_lt_mul (by norm_num)]
        calc v < 32 ^ (n + 1) := hv
        _ = 32 ^ n * 32 := by rw [pow_succ]
      have hfl : v / 32 ≤ f := by
        have : v / 32 < v := Nat.div_lt_self (by omega) (by norm_num)
        omega
      have ihh := ih f (v / 32) hdiv hfl
      show List.replicate ((n + 1) - (base32DigitsRevFuel (f + 1) v).length) 0 ++
        (base32DigitsRevFuel (f + 1) v).reverse = fixedBase32Digits n (v / 32) ++ [v % 32]
      simp only [base32DigitsRevFuel, if_neg h0, List.length_cons, List.reverse_cons,
        Nat.succ_sub_succ]
      rw [← List.append_assoc, ihh]

/-- C1: for every 32-byte digest, `_nix_base32` returns the base-32
representation of the digest bytes read as one little-endian unsigned
integer, most significant digit first over `0123456789abcdfghijklmnpqrsvwxyz`,
left-padded with `0` to exactly ceil(256/5) = 52 characters (so the all-zero
digest yields 52 `0`s, never a shorter string). -/
theorem nix_base32_spec (digest : List Nat) (hlen : digest.length = 32)
    (hbytes : ∀ b ∈ digest, b < 256) :
    nix_base32 digest = base32Render (fixedBase32Digits 52 (fromLEBytes digest)) ∧
    (nix_base32 digest).length = 52 := by
  have h256 : (256 : Nat) = 2 ^ 8 := by norm_num
  have h32 : (32 : Nat) = 2 ^ 5 := by norm_num
  have hv : fromLEBytes digest < 32 ^ 52 := by
    have h1 := fromLEBytes_lt digest hbytes
    rw [hlen] at h1
    calc fromLEBytes digest < 256 ^ 32 := h1
    _ = (2 ^ 8) ^ 32 := by rw [h256]
    _ = 2 ^ (8 * 32) := (pow_mul 2 8 32).symm
    _ ≤ 2 ^ (5 * 52) := Nat.pow_le_pow_right (by norm_num) (by norm_num)
    _ = (2 ^ 5) ^ 52 := pow_mul 2 5 52
    _ = 32 ^ 52 := by rw [← h32]
  have hpad := pad_digits 52 (fromLEBytes digest) (fromLEBytes digest) hv le_rfl
  have h1 : nix_base32 digest = base32Render (fixedBase32Digits 52 (fromLEBytes digest)) := by
    unfold nix_base32 base32Render base32DigitsRev
    apply congrArg String.mk
    rw [hlen]
    norm_num
    rw [← hpad, List.map_append, List.map_replicate, List.map_reverse]
  refine ⟨h1, ?_⟩
  rw [h1]
  unfold base32Render
  rw [String.length_mk, List.length_map, length_fixedBase32Digits]

theorem nix_base32_spec_witness :
    nix_base32 (List.replicate 32 0) = String.mk (List.replicate 52 '0') ∧
    (nix_base32 (List.replicate 32 0)).length = 52 := by
  have h := nix_base32_spec (List.replicate 32 0) (by decide) (by decide)
  exact ⟨h.1.trans (by decide), h.2⟩



/-! ## Lemmas for URL deduplication -/

theorem dedupEntries_sublist : ∀ (es : List ArtifactEntry) (seen : List String),
    List.Sublist (dedupEntries es seen) es := by
  intro es
  induction es with
  | nil => intro seen; simp [dedupEntries]
  | cons a rest ih =>
    intro seen
    by_cases h : a.url ∈ seen
    · simp only [dedupEntries, if_pos h]
      exact (ih seen).trans (List.sublist_cons_self a rest)
    · simp only [dedupEntries, if_neg h]
      exact List.Sublist.cons₂ a (ih (a.url :: seen))

theorem dedupEntries_props : ∀ (es : List ArtifactEntry) (seen : List String),
    ((dedupEntries es seen).map ArtifactEntry.url).Nodup ∧
    (∀ x ∈ dedupEntries es seen, x.url ∉ seen) := by
  intro es
  induction es with
  | nil => intro seen; simp [dedupEntries]
  | cons a rest ih =>
    intro seen
    by_cases h : a.url ∈ seen
    · simpa [dedupEntries, h] using ih seen
    · have ih2 := ih (a.url :: seen)
      simp only [dedupEntries, if_neg h, List.map_cons, List.nodup_cons, List.mem_cons]
      refine ⟨⟨?_, ih2.1⟩, ?_⟩
      · intro hmem
        obtain ⟨x, hx, hxe⟩ := List.mem_map.mp hmem
        exact (ih2.2 x hx) (by simp [hxe])
      · rintro x (rfl | hx)
        · exact h
        · exact fun hs => (ih2.2 x hx) (List.mem_cons_of_mem _ hs)

theorem dedupEntries_find : ∀ (es : List ArtifactEntry) (seen : List String) (e : ArtifactEntry),
    e ∈ dedupEntries es seen →
      e.url ∉ seen ∧ es.find? (fun x => x.url == e.url) = some e := by
  intro es
  induction es with
  | nil => intro seen e h; simp [dedupEntries] at h
  | cons a rest ih =>
    intro seen e hmem
    by_cases h : a.url ∈ seen
    · simp only [dedupEntries, if_pos h] at hmem
      obtain ⟨hnot, hfind⟩ := ih seen e hmem
      have hne : (a.url == e.url) = false :=
        beq_eq_false_iff_ne.mpr (fun hh => hnot (hh ▸ h))
      exact ⟨hnot, by simp [List.find?, hne, hfind]⟩
    · simp only [dedupEntries, if_neg h] at hmem
      rcases List.mem_cons.mp hmem with rfl | hmem2
      · exact ⟨h, by simp [List.find?]⟩
      · obtain ⟨hnot, hfind⟩ := ih (a.url :: seen) e hmem2
        have hne2 : e.url ≠ a.url := fun hh => hnot (by simp [hh])
        have hne : (a.url == e.url) = false :=
          beq_eq_false_iff_ne.mpr (fun hh => hne2 hh.symm)
        exact ⟨fun hs => hnot (List.mem_cons_of_mem _ hs), by simp [List.find?, hne, hfind]⟩

theorem dedupEntries_mem_urls : ∀ (es : List ArtifactEntry) (seen : List String) (u : String),
    u ∈ (dedupEntries es seen).map ArtifactEntry.url ↔
      (u ∈ es.map ArtifactEntry.url ∧ u ∉ seen) := by
  intro es
  induction es with
  | nil => intro seen u; simp [dedupEntries]
  | cons a rest ih =>
    intro seen u
    by_cases h : a.url ∈ seen
    · rw [show dedupEntries (a :: rest) seen = dedupEntries rest seen from by
        simp [dedupEntries, h]]
      rw [ih seen u]
      simp only [List.map_cons, List.mem_cons]
      constructor
      · rintro ⟨hm, hn⟩; exact ⟨Or.inr hm, hn⟩
      · rintro ⟨(rfl | hm), hn⟩
        · exact absurd h hn
        · exact ⟨hm, hn⟩
    · rw [show dedupEntries (a :: rest) seen = a :: dedupEntries rest (a.url :: seen) from by
        simp [dedupEntries, h]]
      simp only [List.map_cons, List.mem_cons]
      rw [ih (a.url :: seen) u]
      simp only [List.mem_cons]
      constructor
      · rintro (rfl | ⟨hm, hn⟩)
        · exact ⟨Or.inl rfl, h⟩
        · exact ⟨Or.inr hm, fun hs => hn (Or.inr hs)⟩
      · rintro ⟨(rfl | hm), hn⟩
        · exact Or.inl rfl
        · by_cases hu : u = a.url
          · exact Or.inl hu
          · exact Or.inr ⟨hm, fun hs => hs.elim hu hn⟩

/-- C4: deduplication keeps, per distinct URL, exactly the first occurrence
in input order (it is a sublist of the input whose URLs are pairwise
distinct, every kept entry is what `find?` returns for its URL, no URL is
lost), so the final count is the number of distinct URLs. -/
theorem dedup_keeps_first_per_url (entries : List ArtifactEntry) :
    List.Sublist (dedupEntries entries []) entries ∧
    ((dedupEntries entries []).map ArtifactEntry.url).Nodup ∧
    (∀ e ∈ dedupEntries entries [], entries.find? (fun x => x.url == e.url) = some e) ∧
    (∀ u, u ∈ entries.map ArtifactEntry.url ↔
      u ∈ (dedupEntries entries []).map ArtifactEntry.url) ∧
    (dedupEntries entries []).length = (entries.map ArtifactEntry.url).toFinset.card := by
  refine ⟨dedupEntries_sublist entries [], (dedupEntries_props entries []).1,
    fun e he => (dedupEntries_find entries [] e he).2, fun u => ?_, ?_⟩
  · rw [dedupEntries_mem_urls entries [] u]; simp
  · have hnd := (dedupEntries_props entries []).1
    have hlen : (dedupEntries entries []).length =
        ((dedupEntries entries []).map ArtifactEntry.url).length := (List.length_map _ _).symm
    rw [hlen, ← List.toFinset_card_of_nodup hnd]
    congr 1
    apply Finset.ext
    intro u
    simp only [List.mem_toFinset]
    rw [dedupEntries_mem_urls entries [] u]
    simp

theorem dedup_keeps_first_per_url_witness :
    (dedupEntries
        [{ url := "u", sha256 := "h1" }, { url := "u", sha256 := "h2" },
          { url := "v", sha256 := "h3" }] []).length =
      (([{ url := "u", sha256 := "h1" }, { url := "u", sha256 := "h2" },
          { url := "v", sha256 := "h3" }] : List ArtifactEntry).map
        ArtifactEntry.url).toFinset.card :=
  (dedup_keeps_first_per_url
    [{ url := "u", sha256 := "h1" }, { url := "u", sha256 := "h2" },
      { url := "v", sha256 := "h3" }]).2.2.2.2

/-! ## Lemmas for the legacy-cache assertion -/

theorem countP_or_disjoint (f g : String → Bool) (l : List String)
    (hdis : ∀ x, ¬(f x = true ∧ g x = true)) :
    l.countP (fun x => f x || g x) = l.countP f + l.countP g := by
  induction l with
  | nil => simp
  | cons a rest ih =>
    cases hf : f a with
    | true =>
      have hg : g a = false := by
        cases hga : g a
        · rfl
        · exact absurd ⟨hf, hga⟩ (hdis a)
      simp [List.countP_cons, hf, hg, ih]
      omega
    | false =>
      cases hg : g a <;> (simp [List.countP_cons, hf, hg, ih]; try omega)

theorem jar_pom_disjoint (p : String) : ¬(isJarEntry p = true ∧ isPomEntry p = true) := by
  rintro ⟨hj, hp⟩
  unfold isJarEntry strEndsWith at hj
  unfold isPomEntry strEndsWith at hp
  rw [Bool.and_eq_true] at hj hp
  have e1 := beq_iff_eq.mp hj.2
  have e2 := beq_iff_eq.mp hp.2
  have l1 : (".jar" : String).data.length = 4 := rfl
  have l2 : (".pom" : String).data.length = 4 := rfl
  rw [l1] at e1
  rw [l2] at e2
  rw [e1] at e2
  exact absurd e2 (by decide)

/-- C5: the legacy-cache check returns silently when the directory is absent
or holds no `.jar`/`.pom` entries, and otherwise fails with the error naming
the offending artifact count and one example offending path. -/
theorem assert_no_ivy_spec (ivyCache : Option (List String)) :
    (ivyCache = none → assert_no_ivy_artifacts ivyCache = Except.ok ()) ∧
    (∀ files, ivyCache = some files →
      ((files.countP isIvyArtifact = 0 → assert_no_ivy_artifacts ivyCache = Except.ok ()) ∧
       (0 < files.countP isIvyArtifact →
         ∃ p, p ∈ files ∧ isIvyArtifact p = true ∧
           assert_no_ivy_artifacts ivyCache =
             Except.error (ivyErrorMsg (files.countP isIvyArtifact) p)))) := by
  constructor
  · rintro rfl; rfl
  · rintro files rfl
    have hsum : files.countP isIvyArtifact =
        files.countP isJarEntry + files.countP isPomEntry := by
      have := countP_or_disjoint isJarEntry isPomEntry files jar_pom_disjoint
      simpa [isIvyArtifact] using this
    have hfl : (files.filter isJarEntry ++ files.filter isPomEntry).length =
        files.countP isIvyArtifact := by
      rw [List.length_append, ← List.countP_eq_length_filter, ← List.countP_eq_length_filter,
        hsum]
    constructor
    · intro h0
      have hnil : files.filter isJarEntry ++ files.filter isPomEntry = [] := by
        apply List.length_eq_zero.mp
        rw [hfl, h0]
      simp only [assert_no_ivy_artifacts]
      rw [hnil]
    · intro hpos
      rcases hne : files.filter isJarEntry ++ files.filter isPomEntry with _ | ⟨a, rest⟩
      · rw [hne] at hfl
        simp at hfl
        omega
      · have ha : a ∈ files.filter isJarEntry ++ files.filter isPomEntry := by
          rw [hne]; exact List.mem_cons_self a rest
        have ha2 : a ∈ files ∧ isIvyArtifact a = true := by
          rcases List.mem_append.mp ha with h | h
          · have h2 := List.mem_filter.mp h
            exact ⟨h2.1, by simp [isIvyArtifact, h2.2]⟩
          · have h2 := List.mem_filter.mp h
            exact ⟨h2.1, by simp [isIvyArtifact, h2.2]⟩
        refine ⟨a, ha2.1, ha2.2, ?_⟩
        have hcount : rest.length + 1 = files.countP isIvyArtifact := by
          rw [← hfl, hne]
          simp
        simp only [assert_no_ivy_artifacts]
        rw [hne, ← hcount]

theorem assert_no_ivy_spec_witness :
    ∃ p, p ∈ ["lib/a.jar"] ∧ isIvyArtifact p = true ∧
      assert_no_ivy_artifacts (some ["lib/a.jar"]) =
        Except.error (ivyErrorMsg ((["lib/a.jar"] : List String).countP isIvyArtifact) p) :=
  ((assert_no_ivy_spec (some ["lib/a.jar"])).2 ["lib/a.jar"] rfl).2 (by decide)



/-! ## Sandbox cleanup -/

/-- C7: with the preservation flag unset the sandbox root is removed both
when the body returns normally and when it raises; with the flag set,
removal is skipped and the preserved location is reported instead, and in
every case the body result is passed through. -/
theorem sandbox_cleanup_spec (keepTemp : Bool) (impl : String → Except String Manifest) :
    (generate_lockfile keepTemp impl).1 = impl tempHomePath ∧
    (keepTemp = false →
      (∀ m, impl tempHomePath = Except.ok m →
        (generate_lockfile keepTemp impl).2.removed = true) ∧
      (∀ e, impl tempHomePath = Except.error e →
        (generate_lockfile keepTemp impl).2.removed = true)) ∧
    (keepTemp = true →
      (generate_lockfile keepTemp impl).2.removed = false ∧
      (generate_lockfile keepTemp impl).2.keptReported = true) := by
  cases himpl : impl tempHomePath with
  | ok m => cases keepTemp <;> simp [generate_lockfile, himpl]
  | error e => cases keepTemp <;> simp [generate_lockfile, himpl]

theorem sandbox_cleanup_spec_witness :
    (generate_lockfile false implFail).2.removed = true :=
  ((sandbox_cleanup_spec false implFail).2.1 rfl).2 "sbt command failed" rfl

/-! ## Shell-command expansion -/

/-- C8 counterexample: the same configured command line `["$SOME_VAR"]`,
expanded with the same sandbox home but two ambient process environments
differing only in `SOME_VAR`, yields different expanded command lines —
`os.path.expandvars` reads the ambient environment, not the overlay. -/
theorem shell_expansion_ambient_counterexample :
    expandShellCommand "/sandbox/home" ambientAlpha ["$SOME_VAR"] ≠
      expandShellCommand "/sandbox/home" ambientBeta ["$SOME_VAR"] := by
  decide

theorem expandVarsAux_no_dollar (envf : String → Option String) :
    ∀ (fuel : Nat) (l : List Char), '$' ∉ l → expandVarsAux envf fuel l = l := by
  intro fuel
  induction fuel with
  | zero => intro l _; rfl
  | succ f ih =>
    intro l hl
    cases l with
    | nil => rfl
    | cons c rest =>
      have hc : ¬(c = '$') := fun h => hl (by simp [h])
      simp only [expandVarsAux, if_neg hc]
      rw [ih rest (fun h => hl (List.mem_cons_of_mem _ h))]

/-- C8 (amended): expansion substitutes the literal `$HOME` with the
sandbox overlay home first (so `$HOME` always resolves to the overlay,
never to the ambient `HOME`), but all remaining variable references are
resolved from the ambient invoking-process environment; hence the expanded
command lines of two runs with different ambient environments coincide
whenever no `$` reference remains after the `$HOME` substitution. -/
theorem shell_expansion_amended (home : String) (amb1 amb2 : String → Option String)
    (cmd : List String)
    (h : ∀ arg ∈ cmd, '$' ∉ (strReplaceAll arg "$HOME" home).data) :
    expandShellCommand home amb1 cmd = expandShellCommand home amb2 cmd ∧
    ('$' ∉ home.data → expandShellArg home amb1 "$HOME" = home) := by
  constructor
  · unfold expandShellCommand
    apply List.map_congr_left
    intro arg harg
    unfold expandShellArg expandVarsStr
    rw [expandVarsAux_no_dollar amb1 _ _ (h arg harg),
      expandVarsAux_no_dollar amb2 _ _ (h arg harg)]
  · intro hd
    have h1 : strReplaceAll "$HOME" "$HOME" home = home := by
      show String.mk (home.data ++ []) = home
      rw [List.append_nil]
    unfold expandShellArg
    rw [h1]
    unfold expandVarsStr
    rw [expandVarsAux_no_dollar amb1 _ _ hd]

theorem shell_expansion_amended_witness :
    expandShellCommand "/sb" ambientAlpha ["$HOME/bin/run", "ok"] =
      expandShellCommand "/sb" ambientBeta ["$HOME/bin/run", "ok"] :=
  (shell_expansion_amended "/sb" ambientAlpha ambientBeta ["$HOME/bin/run", "ok"]
    (by decide)).1



/-! ## The path/entry orders are total preorders (antisymmetric on paths) -/

theorem listCharLe_refl : ∀ as : List Char, listCharLe as as = true := by
  intro as
  induction as with
  | nil => rfl
  | cons a rest ih => simp [listCharLe, ih]

theorem listCharLe_total : ∀ as bs : List Char,
    listCharLe as bs = true ∨ listCharLe bs as = true := by
  intro as
  induction as with
  | nil => intro bs; left; rfl
  | cons a rest ih =>
    intro bs
    cases bs with
    | nil => right; rfl
    | cons b bs2 =>
      by_cases hab : a = b
      · subst hab
        rcases ih bs2 with h | h
        · left; simp [listCharLe, h]
        · right; simp [listCharLe, h]
      · have hba : ¬(b = a) := fun hh => hab hh.symm
        rcases lt_or_gt_of_ne hab with h | h
        · left; simp [listCharLe, hab, h]
        · right; simp [listCharLe, hba, h]

theorem listCharLe_trans : ∀ as bs cs : List Char,
    listCharLe as bs = true → listCharLe bs cs = true → listCharLe as cs = true := by
  intro as
  induction as with
  | nil => intro bs cs _ _; rfl
  | cons a rest ih =>
    intro bs cs h1 h2
    cases bs with
    | nil => simp [listCharLe] at h1
    | cons b bs2 =>
      cases cs with
      | nil => simp [listCharLe] at h2
      | cons c cs2 =>
        by_cases hab : a = b <;> by_cases hbc : b = c
        · subst hab; subst hbc
          simp only [listCharLe, if_pos rfl] at h1 h2 ⊢
          exact ih bs2 cs2 h1 h2
        · subst hab
          simp only [listCharLe, if_pos rfl, if_neg hbc] at h2
          have hlt : a < c := of_decide_eq_true h2
          have hac : ¬(a = c) := fun hh => absurd (hh ▸ hlt) (lt_irrefl c)
          simp [listCharLe, hac, hlt]
        · subst hbc
          simp only [listCharLe, if_neg hab] at h1
          have hlt : a < b := of_decide_eq_true h1
          have hac : ¬(a = b) := hab
          simp [listCharLe, hac, hlt]
        · simp only [listCharLe, if_neg hab] at h1
          simp only [listCharLe, if_neg hbc] at h2
          have hlt1 : a < b := of_decide_eq_true h1
          have hlt2 : b < c := of_decide_eq_true h2
          have hlt : a < c := lt_trans hlt1 hlt2
          have hac : ¬(a = c) := fun hh => absurd (hh ▸ hlt) (lt_irrefl c)
          simp [listCharLe, hac, hlt]

theorem listCharLe_antisymm : ∀ as bs : List Char,
    listCharLe as bs = true → listCharLe bs as = true → as = bs := by
  intro as
  induction as with
  | nil =>
    intro bs h1 h2
    cases bs with
    | nil => rfl
    | cons b bs2 => simp [listCharLe] at h2
  | cons a rest ih =>
    intro bs h1 h2
    cases bs with
    | nil => simp [listCharLe] at h1
    | cons b bs2 =>
      by_cases hab : a = b
      · subst hab
        simp only [listCharLe, if_pos rfl] at h1 h2
        rw [ih bs2 h1 h2]
      · have hba : ¬(b = a) := fun hh => hab hh.symm
        simp only [listCharLe, if_neg hab] at h1
        simp only [listCharLe, if_neg hba] at h2
        exact absurd (of_decide_eq_true h1) (asymm (of_decide_eq_true h2))

theorem pathLe_refl (p : String) : pathLe p p := listCharLe_refl p.data

theorem string_eq_of_data_eq (a b : String) (h : a.data = b.data) : a = b :=
  congrArg String.mk h



/-! ## Scanner ordering and builder inversion -/

theorem find_coursier_artifacts_sorted (files : List String) :
    List.Sorted pathLe (find_coursier_artifacts files) := by
  haveI : IsTotal String pathLe := ⟨fun a b => listCharLe_total a.data b.data⟩
  haveI : IsTrans String pathLe := ⟨fun a b c => listCharLe_trans a.data b.data c.data⟩
  exact List.sorted_insertionSort pathLe _

theorem find_coursier_artifacts_perm (files files2 : List String)
    (h : List.Perm files files2) :
    find_coursier_artifacts files = find_coursier_artifacts files2 := by
  haveI : IsTotal String pathLe := ⟨fun a b => listCharLe_total a.data b.data⟩
  haveI : IsTrans String pathLe := ⟨fun a b c => listCharLe_trans a.data b.data c.data⟩
  haveI : IsAntisymm String pathLe :=
    ⟨fun a b h1 h2 => string_eq_of_data_eq a b (listCharLe_antisymm a.data b.data h1 h2)⟩
  unfold find_coursier_artifacts
  refine List.eq_of_perm_of_sorted ?_ (List.sorted_insertionSort pathLe _)
    (List.sorted_insertionSort pathLe _)
  exact (List.perm_insertionSort pathLe _).trans
    (((h.filter _).append (h.filter _)).trans (List.perm_insertionSort pathLe _).symm)

theorem generate_phase2_perm (cacheDir : String) (ivy : Option (List String))
    (hash : String → String) (files files2 : List String)
    (h : List.Perm files files2) :
    generate_phase2 cacheDir ivy files hash = generate_phase2 cacheDir ivy files2 hash := by
  unfold generate_phase2
  rw [find_coursier_artifacts_perm files files2 h]

theorem generate_phase2_ok_inv (cacheDir : String) (ivy : Option (List String))
    (files : List String) (hash : String → String) (m : Manifest)
    (hok : generate_phase2 cacheDir ivy files hash = Except.ok m) :
    ∃ entries, find_coursier_artifacts files ≠ [] ∧
      buildEntries (urlOfPath cacheDir) (fun p => hash (absPath cacheDir p))
        (find_coursier_artifacts files) = Except.ok entries ∧
      m = { version := 1, artifacts := sortEntries (dedupEntries entries []) } := by
  unfold generate_phase2 at hok
  cases hassert : assert_no_ivy_artifacts ivy with
  | error e => rw [hassert] at hok; simp at hok
  | ok u =>
    rw [hassert] at hok
    dsimp only at hok
    split at hok
    · simp at hok
    · rename_i hne
      split at hok
      · simp at hok
      · rename_i entries heq
        refine ⟨entries, hne, heq, ?_⟩
        exact (Except.ok.inj hok).symm

/-- C2: whenever phase 2 produces a manifest, its artifact array is sorted
non-decreasing by URL, and presenting the same discovered file set in any
other traversal order produces the identical manifest. -/
theorem manifest_sorted_and_deterministic (cacheDir : String) (ivy : Option (List String))
    (hash : String → String) (files files2 : List String) (m : Manifest)
    (hperm : List.Perm files files2)
    (hok : generate_phase2 cacheDir ivy files hash = Except.ok m) :
    List.Sorted entryLe m.artifacts ∧
    generate_phase2 cacheDir ivy files2 hash = Except.ok m := by
  constructor
  · obtain ⟨entries, _, _, rfl⟩ := generate_phase2_ok_inv cacheDir ivy files hash m hok
    haveI : IsTotal ArtifactEntry entryLe :=
      ⟨fun a b => listCharLe_total a.url.data b.url.data⟩
    haveI : IsTrans ArtifactEntry entryLe :=
      ⟨fun a b c => listCharLe_trans a.url.data b.url.data c.url.data⟩
    exact List.sorted_insertionSort entryLe _
  · rw [← generate_phase2_perm cacheDir ivy hash files files2 hperm]
    exact hok

theorem manifest_sorted_and_deterministic_witness :
    List.Sorted entryLe
      (Manifest.mk 1
        [{ url := "https://r/a.jar", sha256 := "h" },
          { url := "https://r/b.jar", sha256 := "h" }]).artifacts ∧
    generate_phase2 "c" none ["cache/https/r/a.jar", "https/r/b.jar"] hashConst =
      Except.ok
        (Manifest.mk 1
          [{ url := "https://r/a.jar", sha256 := "h" },
            { url := "https://r/b.jar", sha256 := "h" }]) :=
  manifest_sorted_and_deterministic "c" none hashConst
    ["https/r/b.jar", "cache/https/r/a.jar"] ["cache/https/r/a.jar", "https/r/b.jar"]
    (Manifest.mk 1
      [{ url := "https://r/a.jar", sha256 := "h" },
        { url := "https://r/b.jar", sha256 := "h" }])
    (by decide) (by rfl)

/-- C6: when the cache scanner discovers zero artifact files, phase 2
raises the invariant-violation error (when the legacy-cache check passed)
and never returns a manifest. -/
theorem zero_artifacts_error (cacheDir : String) (ivy : Option (List String))
    (files : List String) (hash : String → String)
    (hempty : find_coursier_artifacts files = []) :
    (assert_no_ivy_artifacts ivy = Except.ok () →
      generate_phase2 cacheDir ivy files hash =
        Except.error "No Coursier artifacts found - sbt may have failed to download dependencies") ∧
    (∀ m, generate_phase2 cacheDir ivy files hash ≠ Except.ok m) := by
  constructor
  · intro hassert
    unfold generate_phase2
    rw [hassert]
    dsimp only
    rw [hempty, if_pos rfl]
  · intro m hok
    obtain ⟨entries, hne, _, _⟩ := generate_phase2_ok_inv cacheDir ivy files hash m hok
    exact hne hempty

theorem zero_artifacts_error_witness :
    generate_phase2 "c" none [] hashConst =
      Except.error "No Coursier artifacts found - sbt may have failed to download dependencies" :=
  (zero_artifacts_error "c" none [] hashConst (by rfl)).1 (by rfl)



/-! ## Correspondence between scanned paths and built entries -/

theorem buildEntries_forall2 (urlOf : String → Except String String)
    (hashOf : String → String) :
    ∀ (l : List String) (es : List ArtifactEntry),
      buildEntries urlOf hashOf l = Except.ok es →
      List.Forall₂ (fun p e => urlOf p = Except.ok e.url ∧ e.sha256 = hashOf p) l es := by
  intro l
  induction l with
  | nil =>
    intro es h
    simp only [buildEntries] at h
    rw [← Except.ok.inj h]
    exact List.Forall₂.nil
  | cons p rest ih =>
    intro es h
    unfold buildEntries at h
    split at h
    · simp at h
    · rename_i u hu
      split at h
      · simp at h
      · rename_i es2 hes2
        rw [← Except.ok.inj h]
        exact List.Forall₂.cons ⟨hu, rfl⟩ (ih es2 hes2)

theorem find_min_entry (urlOf : String → Except String String) (hashOf : String → String) :
    ∀ (l : List String) (es : List ArtifactEntry),
      List.Forall₂ (fun p e => urlOf p = Except.ok e.url ∧ e.sha256 = hashOf p) l es →
      List.Sorted pathLe l →
      ∀ e : ArtifactEntry, es.find? (fun x => x.url == e.url) = some e →
        ∃ p, p ∈ l ∧ urlOf p = Except.ok e.url ∧ e.sha256 = hashOf p ∧
          ∀ q ∈ l, urlOf q = Except.ok e.url → pathLe p q := by
  intro l es hfa
  induction hfa with
  | nil => intro _ e hfind; simp [List.find?] at hfind
  | cons hpe htail ih =>
    rename_i p e0 lt et
    intro hsort e hfind
    rw [List.sorted_cons] at hsort
    obtain ⟨hmin, hsort2⟩ := hsort
    by_cases hhead : (e0.url == e.url) = true
    · have he : e0 = e := by
        simpa [List.find?, hhead] using hfind
      subst he
      refine ⟨p, List.mem_cons_self _ _, hpe.1, hpe.2, ?_⟩
      intro q hq hqurl
      rcases List.mem_cons.mp hq with rfl | hql
      · exact pathLe_refl q
      · exact hmin q hql
    · have hfind2 : et.find? (fun x => x.url == e.url) = some e := by
        simpa [List.find?, hhead] using hfind
      have hne : e0.url ≠ e.url := fun hh => hhead (beq_iff_eq.mpr hh)
      obtain ⟨q0, hq0l, hq0u, hq0s, hq0min⟩ := ih hsort2 e hfind2
      refine ⟨q0, List.mem_cons_of_mem _ hq0l, hq0u, hq0s, ?_⟩
      intro q hq hqurl
      rcases List.mem_cons.mp hq with rfl | hql
      · rw [hpe.1] at hqurl
        exact absurd (Except.ok.inj hqurl) hne
      · exact hq0min q hql hqurl

/-- C10: the cache scanner returns its file list sorted ascending by path,
and every manifest entry is built from a scanned path resolving to its URL
that is minimal in the path order among all scanned paths resolving to that
URL — duplicates keep the hash of the lexicographically smallest path. -/
theorem scanner_sorted_dedup_min (cacheDir : String) (ivy : Option (List String))
    (files : List String) (hash : String → String) (m : Manifest)
    (hok : generate_phase2 cacheDir ivy files hash = Except.ok m) :
    List.Sorted pathLe (find_coursier_artifacts files) ∧
    ∀ e ∈ m.artifacts, ∃ p, p ∈ find_coursier_artifacts files ∧
      urlOfPath cacheDir p = Except.ok e.url ∧
      e.sha256 = hash (absPath cacheDir p) ∧
      ∀ q ∈ find_coursier_artifacts files,
        urlOfPath cacheDir q = Except.ok e.url → pathLe p q := by
  refine ⟨find_coursier_artifacts_sorted files, ?_⟩
  obtain ⟨entries, hne, hbe, rfl⟩ := generate_phase2_ok_inv cacheDir ivy files hash m hok
  intro e he
  have he2 : e ∈ dedupEntries entries [] :=
    (List.perm_insertionSort entryLe (dedupEntries entries [])).mem_iff.mp he
  have hfind := (dedupEntries_find entries [] e he2).2
  have hfa := buildEntries_forall2 (urlOfPath cacheDir)
    (fun p => hash (absPath cacheDir p)) (find_coursier_artifacts files) entries hbe
  exact find_min_entry (urlOfPath cacheDir) (fun p => hash (absPath cacheDir p))
    (find_coursier_artifacts files) entries hfa (find_coursier_artifacts_sorted files) e hfind

theorem scanner_sorted_dedup_min_witness :
    ∃ p, p ∈ find_coursier_artifacts ["cache/https/r/a.jar", "https/r/a.jar"] ∧
      urlOfPath "c" p = Except.ok "https://r/a.jar" ∧
      "c/cache/https/r/a.jar" = hashIdent (absPath "c" p) ∧
      ∀ q ∈ find_coursier_artifacts ["cache/https/r/a.jar", "https/r/a.jar"],
        urlOfPath "c" q = Except.ok "https://r/a.jar" → pathLe p q :=
  (scanner_sorted_dedup_min "c" none ["cache/https/r/a.jar", "https/r/a.jar"] hashIdent
    (Manifest.mk 1 [{ url := "https://r/a.jar", sha256 := "c/cache/https/r/a.jar" }])
    (by rfl)).2
    { url := "https://r/a.jar", sha256 := "c/cache/https/r/a.jar" }
    (List.mem_singleton.mpr rfl)



/-! ## Configuration loading -/

theorem mkSbtRun_ok_inv (args : List JValue) (run : SbtRun)
    (h : mkSbtRun args = Except.ok run) : args ≠ [] ∧ run.args = args := by
  cases args with
  | nil => simp [mkSbtRun] at h
  | cons a as =>
    refine ⟨by simp, ?_⟩
    have := Except.ok.inj h
    rw [← this]

theorem parseSbtRuns_ok_inv : ∀ (i : Nat) (rs : List JValue) (runs : List SbtRun),
    parseSbtRuns i rs = Except.ok runs →
    runs.length = rs.length ∧
    (∀ run ∈ runs, run.args ≠ []) ∧
    (∀ r ∈ rs, ∃ flds args, r = JValue.jobj flds ∧
      jlookup "args" flds = some (JValue.jarr args) ∧ args ≠ []) := by
  intro i rs
  induction rs generalizing i with
  | nil =>
    intro runs h
    simp only [parseSbtRuns] at h
    rw [← Except.ok.inj h]
    exact ⟨rfl, by simp, by simp⟩
  | cons r rest ih =>
    intro runs h
    unfold parseSbtRuns at h
    split at h
    · rename_i fields
      split at h
      · simp at h
      · rename_i args hlook
        split at h
        · simp at h
        · rename_i run hrun
          split at h
          · simp at h
          · rename_i runs2 hruns2
            obtain ⟨hlen, hargs, hbad⟩ := ih (i + 1) runs2 hruns2
            obtain ⟨hne, hra⟩ := mkSbtRun_ok_inv _ run hrun
            rw [← Except.ok.inj h]
            refine ⟨by simp [hlen], ?_, ?_⟩
            · intro run2 hmem
              rcases List.mem_cons.mp hmem with rfl | hm
              · rw [hra]; exact hne
              · exact hargs run2 hm
            · intro r2 hmem
              rcases List.mem_cons.mp hmem with rfl | hm
              · exact ⟨fields, args, rfl, hlook, hne⟩
              · exact hbad r2 hm
      · simp at h
    · simp at h

theorem mkConfig_ok_inv (runs : List SbtRun) (shells : List (List JValue))
    (fetches : List ArtifactFetch) (c : Config)
    (h : mkConfig runs shells fetches = Except.ok c) :
    runs ≠ [] ∧ c.sbt_runs = runs := by
  cases runs with
  | nil => simp [mkConfig] at h
  | cons a as =>
    refine ⟨by simp, ?_⟩
    have := Except.ok.inj h
    rw [← this]

theorem configLoad_ok_inv (data : List (String × JValue)) (c : Config)
    (h : Config.load data = Except.ok c) :
    c.sbt_runs ≠ [] ∧
    (∀ run ∈ c.sbt_runs, run.args ≠ []) ∧
    (∀ rs, jlookup "sbt_runs" data = some (JValue.jarr rs) →
      rs ≠ [] ∧
      (∀ r ∈ rs, ∃ flds args, r = JValue.jobj flds ∧
        jlookup "args" flds = some (JValue.jarr args) ∧ args ≠ [])) := by
  unfold Config.load at h
  split at h
  · simp at h
  · rename_i rs hlook
    split at h
    · simp at h
    · rename_i runs hruns
      split at h
      · simp at h
      · rename_i shells hshells
        split at h
        · simp at h
        · rename_i fetches hfetches
          obtain ⟨hlen, hargs, hbad⟩ := parseSbtRuns_ok_inv 0 rs runs hruns
          obtain ⟨hne, hcr⟩ := mkConfig_ok_inv runs shells fetches c h
          refine ⟨by rw [hcr]; exact hne, by rw [hcr]; exact hargs, ?_⟩
          intro rs2 hlook2
          rw [hlook] at hlook2
          injection hlook2 with hl
          injection hl with hl2
          subst hl2
          constructor
          · intro hnil
            rw [hnil] at hlen
            simp at hlen
            exact hne hlen
          · exact hbad
  · rename_i hlook hnotarr
    simp at h

/-- C9 counterexample: a configuration document whose `shell_commands`
contains an empty command line is accepted by `Config.load` — loading does
not fail for this empty required array, contrary to the claim. -/
theorem config_load_empty_shell_command_accepted :
    isOkE (Config.load
      [("sbt_runs", JValue.jarr [JValue.jobj [("args", JValue.jarr [JValue.jstr "compile"])]]),
       ("shell_commands", JValue.jarr [JValue.jarr []])]) = true := by
  rfl

/-- C9 (amended): loading fails (with a message, before generation runs)
when `sbt_runs` is missing or is not an array, when the `sbt_runs` array is
empty, when an entry is not an object, and when an entry has a missing
`args` field, an `args` field that is not an array, or an empty `args`
array; a loaded configuration always has a nonempty run list with nonempty
argument lists, and a load failure propagates out of `main` before the
generation body is ever consulted. Empty `shell_commands` entries, however,
are accepted. -/
theorem config_load_validation_amended (data : List (String × JValue)) :
    (jlookup "sbt_runs" data = none →
      Config.load data = Except.error "Config must contain sbt_runs array") ∧
    (∀ v, jlookup "sbt_runs" data = some v → (∀ rs, v ≠ JValue.jarr rs) →
      Config.load data = Except.error "sbt_runs must be an array") ∧
    (∀ rs, jlookup "sbt_runs" data = some (JValue.jarr rs) →
      ((rs = [] → ∃ e, Config.load data = Except.error e) ∧
       (∀ r ∈ rs, (∀ flds, r ≠ JValue.jobj flds) →
         ∃ e, Config.load data = Except.error e) ∧
       (∀ r ∈ rs, ∀ flds, r = JValue.jobj flds → jlookup "args" flds = none →
         ∃ e, Config.load data = Except.error e) ∧
       (∀ r ∈ rs, ∀ flds, r = JValue.jobj flds → ∀ v, jlookup "args" flds = some v →
         (∀ args, v ≠ JValue.jarr args) → ∃ e, Config.load data = Except.error e) ∧
       (∀ r ∈ rs, ∀ flds, r = JValue.jobj flds →
         jlookup "args" flds = some (JValue.jarr []) →
           ∃ e, Config.load data = Except.error e))) ∧
    (∀ c, Config.load data = Except.ok c →
      c.sbt_runs ≠ [] ∧ ∀ run ∈ c.sbt_runs, run.args ≠ []) ∧
    (∀ e, Config.load data = Except.error e →
      ∀ gen, runMain data gen = Except.error e) := by
  refine ⟨?_, ?_, ?_, ?_, ?_⟩
  · intro hlook
    unfold Config.load
    rw [hlook]
  · intro v hlook hnot
    unfold Config.load
    rw [hlook]
    cases v with
    | jarr rs => exact absurd rfl (hnot rs)
    | jnull => rfl
    | jbool b => rfl
    | jnum n => rfl
    | jstr s => rfl
    | jobj fs => rfl
  · intro rs hlook
    refine ⟨?_, ?_, ?_, ?_, ?_⟩
    · intro hnil
      cases hres : Config.load data with
      | error e => exact ⟨e, rfl⟩
      | ok c =>
        obtain ⟨-, -, hrs⟩ := configLoad_ok_inv data c hres
        exact absurd hnil (hrs rs hlook).1
    · intro r hmem hnotobj
      cases hres : Config.load data with
      | error e => exact ⟨e, rfl⟩
      | ok c =>
        obtain ⟨-, -, hrs⟩ := configLoad_ok_inv data c hres
        obtain ⟨flds, args, hfl, -, -⟩ := (hrs rs hlook).2 r hmem
        exact absurd hfl (hnotobj flds)
    · intro r hmem flds hflds hnone
      cases hres : Config.load data with
      | error e => exact ⟨e, rfl⟩
      | ok c =>
        obtain ⟨-, -, hrs⟩ := configLoad_ok_inv data c hres
        obtain ⟨flds2, args, hfl, hlk, -⟩ := (hrs rs hlook).2 r hmem
        rw [hflds] at hfl
        injection hfl with hf
        subst hf
        rw [hnone] at hlk
        simp at hlk
    · intro r hmem flds hflds v hv hnotarr
      cases hres : Config.load data with
      | error e => exact ⟨e, rfl⟩
      | ok c =>
        obtain ⟨-, -, hrs⟩ := configLoad_ok_inv data c hres
        obtain ⟨flds2, args, hfl, hlk, -⟩ := (hrs rs hlook).2 r hmem
        rw [hflds] at hfl
        injection hfl with hf
        subst hf
        rw [hv] at hlk
        injection hlk with hl
        exact absurd hl (hnotarr args)
    · intro r hmem flds hflds hlook2
      cases hres : Config.load data with
      | error e => exact ⟨e, rfl⟩
      | ok c =>
        obtain ⟨-, -, hrs⟩ := configLoad_ok_inv data c hres
        obtain ⟨flds2, args, hfl, hlk, hne⟩ := (hrs rs hlook).2 r hmem
        rw [hflds] at hfl
        injection hfl with hf
        subst hf
        rw [hlook2] at hlk
        injection hlk with hl
        injection hl with hl2
        exact (hne hl2.symm).elim
  · intro c hres
    obtain ⟨h1, h2, -⟩ := configLoad_ok_inv data c hres
    exact ⟨h1, h2⟩
  · intro e he gen
    unfold runMain
    rw [he]

theorem config_load_validation_amended_witness :
    ∃ e, Config.load [("sbt_runs", JValue.jarr [])] = Except.error e :=
  ((config_load_validation_amended [("sbt_runs", JValue.jarr [])]).2.2.1 [] rfl).1 rfl



/-! ## Lemmas for the cache path resolver -/

theorem stringMk_data (s : String) : String.mk s.data = s := rfl

theorem relativeTo_append (root rel : String) :
    relativeTo ((root ++ "/") ++ rel) root = some rel := by
  unfold relativeTo
  have hslash : ("/" : String).data.length = 1 := rfl
  have hne : ¬((root ++ "/") ++ rel = root) := by
    intro h
    have hd := congrArg String.data h
    rw [String.data_append, String.data_append] at hd
    have hl := congrArg List.length hd
    rw [List.length_append, List.length_append, hslash] at hl
    omega
  rw [if_neg hne]
  have hsw : strStartsWith ((root ++ "/") ++ rel) (root ++ "/") = true := by
    unfold strStartsWith
    rw [String.data_append (root ++ "/") rel, List.take_left]
    exact beq_self_eq_true _
  rw [if_pos hsw]
  rw [String.data_append (root ++ "/") rel, List.drop_left]

theorem indexOfFirst_append_cons (x : String) (post : List String) :
    ∀ pre : List String, x ∉ pre →
      indexOfFirst x (pre ++ x :: post) = some pre.length := by
  intro pre
  induction pre with
  | nil => intro _; simp [indexOfFirst]
  | cons a ps ih =>
    intro hx
    have hax : ¬(a = x) := fun h => hx (by simp [h])
    simp only [List.cons_append, indexOfFirst, if_neg hax, List.append_eq]
    rw [ih (fun h => hx (List.mem_cons_of_mem _ h))]
    rfl

theorem indexOfFirst_not_mem (x : String) :
    ∀ l : List String, x ∉ l → indexOfFirst x l = none := by
  intro l
  induction l with
  | nil => intro _; rfl
  | cons a ps ih =>
    intro hx
    have hax : ¬(a = x) := fun h => hx (by simp [h])
    simp only [indexOfFirst, if_neg hax]
    rw [ih (fun h => hx (List.mem_cons_of_mem _ h))]
    rfl

theorem drop_after_idx (x : String) (post : List String) :
    ∀ pre : List String, (pre ++ x :: post).drop (pre.length + 1) = post := by
  intro pre
  induction pre with
  | nil => simp
  | cons a ps ih => simp [ih]

/-- C3: for an artifact path below the cache root, `path_to_url` takes the
path relative to the root, locates the first segment equal to `https` and
returns `https://` followed by the remaining segments joined by `/`; when no
`https` segment exists in the relative path it fails with the structural
error instead of returning a URL. -/
theorem path_to_url_spec (root rel : String) :
    (∀ pre post, pathParts rel = pre ++ "https" :: post → "https" ∉ pre →
       path_to_url ((root ++ "/") ++ rel) root =
         Except.ok ("https://" ++ joinSlash post)) ∧
    ("https" ∉ pathParts rel →
       path_to_url ((root ++ "/") ++ rel) root =
         Except.error ("Unexpected path structure (no https): " ++ ((root ++ "/") ++ rel))) := by
  constructor
  · intro pre post hsplit hpre
    unfold path_to_url
    rw [relativeTo_append]
    dsimp only
    rw [hsplit, indexOfFirst_append_cons "https" post pre hpre]
    dsimp only
    rw [drop_after_idx]
  · intro hno
    unfold path_to_url
    rw [relativeTo_append]
    dsimp only
    rw [indexOfFirst_not_mem "https" (pathParts rel) hno]

theorem path_to_url_spec_witness :
    path_to_url (("/r" ++ "/") ++ "cache/https/repo.example.com/g/a/1.0/a-1.0.jar") "/r" =
      Except.ok "https://repo.example.com/g/a/1.0/a-1.0.jar" :=
  ((path_to_url_spec "/r" "cache/https/repo.example.com/g/a/1.0/a-1.0.jar").1
    ["cache"] ["repo.example.com", "g", "a", "1.0", "a-1.0.jar"]
    (by decide) (by decide)).trans (by rfl)


end Squish
